import Mathlib

/-!
# Verification of the minebuilder room synchronization engine

Shallow embedding of `src/app/api/building/[roomId]/route.ts` (the variant with
player tracking): the in-memory room registry, the SSE subscribe handler (`GET`),
the action submission handler (`POST`), the disconnect hook, and the broadcast
fan-out, together with proofs of the specification's claims about them.

Modelling conventions:
* JS numbers carrying grid/world coordinates are modelled as `Int` (no claim
  depends on their arithmetic).
* A JS `undefined` payload field is `Option.none`; in particular
  `room.blocks.push(data.block)` with a missing `block` field pushes an
  `undefined` entry, so `Room.blocks` is a `List (Option Block)`.
* A `ReadableStreamDefaultController` is a `Channel`: an identity `cid`, a
  `broken` flag (its `enqueue` throws exactly when the remote end is gone), and
  the `buffer` of frames successfully enqueued.
* The JS `Map`s (`rooms`, `room.players`) are insertion-ordered association
  lists; the JS `Set` of clients is an insertion-ordered list.
* Statements where the route handler throws a `TypeError` that is caught by the
  surrounding `try` (e.g. reading `data.block.x` off `undefined`, or
  `block.id` inside the remove filter) are modelled by returning the
  `serverError` response at the corresponding point, with exactly the
  mutations that had already happened kept.
-/

namespace Minebuilder

/-- Coordinates of a client-submitted `position` payload (`data.position`). -/
structure Position where
  x : Int
  y : Int
  z : Int
deriving DecidableEq

/-- `IBlockPosition` from the route: a block record stored in `room.blocks`. -/
structure Block where
  x : Int
  y : Int
  z : Int
  blockType : Option String
  color : Option String
  id : String
deriving DecidableEq

/-- `IPlayerPosition` from the route: a player record stored in `room.players`. -/
structure Player where
  x : Int
  y : Int
  z : Int
  name : String
deriving DecidableEq

/-- The JSON frames written to subscriber channels: the `init` snapshot sent to a
new subscriber plus the frames produced by `broadcastToRoom`. -/
inductive Event where
  | init (blocks : List (Option Block)) (players : List Player)
  | add (block : Block) (sender : Option String)
  | remove (blockId : Option String) (sender : Option String)
  | clear
  | player_joined (name : String) (playerCount : Nat)
  | player_left (name : String) (playerCount : Nat)
  | player_moved (name : String) (position : Position)
deriving DecidableEq

/-- One subscriber connection (`ReadableStreamDefaultController`): `enqueue`
throws exactly when `broken` is set; `buffer` records the delivered frames. -/
structure Channel where
  cid : Nat
  broken : Bool
  buffer : List Event
deriving DecidableEq

/-- A room's state: `blocks` array, `clients` set, `players` map. -/
structure Room where
  blocks : List (Option Block)
  clients : List Channel
  players : List (String × Player)
deriving DecidableEq

/-- The room freshly created by `getOrCreateRoom`. -/
def emptyRoom : Room := ⟨[], [], []⟩

/-- The process-wide `rooms` map, keyed by room id (insertion-ordered). -/
abbrev Rooms := List (String × Room)

/-- `rooms.get(k)` on the registry. -/
def findRoom : Rooms → String → Option Room
  | [], _ => none
  | (k', r) :: rest, k => if k' = k then some r else findRoom rest k

/-- `getOrCreateRoom`: insert an empty room on first reference. -/
def getOrCreateRoom (rs : Rooms) (k : String) : Rooms :=
  match findRoom rs k with
  | some _ => rs
  | none => rs ++ [(k, emptyRoom)]

/-- In-place mutation of the room object stored under key `k`. -/
def updateRoom (rs : Rooms) (k : String) (f : Room → Room) : Rooms :=
  rs.map (fun p => if p.1 = k then (p.1, f p.2) else p)

/-- `controller.enqueue(frame)`: fails (throws) exactly on a broken connection. -/
def enqueue (c : Channel) (e : Event) : Except Unit Channel :=
  if c.broken then Except.error () else Except.ok { c with buffer := c.buffer ++ [e] }

/-- The `forEach` loop of `broadcastToRoom`: try to enqueue on every channel,
catching the per-channel failure and deleting the broken channel. -/
def deliver (e : Event) : List Channel → List Channel
  | [] => []
  | c :: cs =>
    match enqueue c e with
    | Except.ok c' => c' :: deliver e cs
    | Except.error _ => deliver e cs

/-- `broadcastToRoom(roomId, data)`: no-op when the room does not exist,
otherwise fan the frame out over the room's client set. -/
def broadcastToRoom (rs : Rooms) (k : String) (e : Event) : Rooms :=
  match findRoom rs k with
  | none => rs
  | some _ => updateRoom rs k (fun room => { room with clients := deliver e room.clients })

/-- `room.players.set(n, p)` on an insertion-ordered map: overwrite in place or
append. -/
def playersSet (ps : List (String × Player)) (n : String) (p : Player) :
    List (String × Player) :=
  match ps with
  | [] => [(n, p)]
  | (n', p') :: rest => if n' = n then (n, p) :: rest else (n', p') :: playersSet rest n p

/-- `room.players.delete(n)`. -/
def playersDelete (ps : List (String × Player)) (n : String) : List (String × Player) :=
  ps.filter (fun q => q.1 != n)

/-- `Array.from(room.players.values())`. -/
def playersValues (ps : List (String × Player)) : List Player := ps.map Prod.snd

/-- The in-place `player.x = …; player.y = …; player.z = …` of the
`update_position` case (the stored `name` field is not touched). -/
def playersMove (ps : List (String × Player)) (n : String) (pos : Position) :
    List (String × Player) :=
  ps.map (fun q =>
    if q.1 = n then (q.1, { q.2 with x := pos.x, y := pos.y, z := pos.z }) else q)

/-- `room.blocks` of the room under key `k`, an absent room reading as empty. -/
def roomBlocksD (rs : Rooms) (k : String) : List (Option Block) :=
  ((findRoom rs k).map Room.blocks).getD []

/-- `room.players` of the room under key `k`, an absent room reading as empty. -/
def roomPlayersD (rs : Rooms) (k : String) : List (String × Player) :=
  ((findRoom rs k).map Room.players).getD []

/-- `room.clients` of the room under key `k`, an absent room reading as empty. -/
def roomClientsD (rs : Rooms) (k : String) : List Channel :=
  ((findRoom rs k).map Room.clients).getD []

/-- `block.id` of a possibly-`undefined` entry of `room.blocks`. -/
def obId : Option Block → Option String
  | none => none
  | some b => some b.id

/-- The ids of the blocks present in room `k`. -/
def blockIdsD (rs : Rooms) (k : String) : List String :=
  (roomBlocksD rs k).filterMap obId

/-- The fields of a POST body that the route reads: the `action` tag with the
payload fields of that case; a missing field is `none`. An unrecognized tag is
`other`. -/
inductive Action where
  | add (block : Option Block) (sender : Option String)
  | remove (blockId : Option String) (sender : Option String)
  | clear
  | update_position (sender : Option String) (position : Option Position)
  | other (tag : String)
deriving DecidableEq

/-- The three JSON responses of the POST handler. -/
inductive Response where
  | success
  | invalidAction
  | serverError
deriving DecidableEq

/-- JS truthiness of the optional string `data.sender` (`undefined` and the empty
string are falsy). -/
def truthyStr : Option String → Bool
  | none => false
  | some s => s != ""

/-- The POST handler. Mirrors the route's `switch` including the places where a
missing field makes a later statement throw inside the `try` (answered with the
500 response) after part of the mutation already happened:
* `add` first pushes `data.block` (possibly `undefined`) and only then reads
  `data.block.x` in the log statement, so a missing block mutates the room and
  then yields `serverError`, with no broadcast;
* the `remove` filter reads `block.id` of every entry, so it throws (yielding
  `serverError`, with `room.blocks` not reassigned) when some entry is
  `undefined`;
* `update_position` is guarded by `data.sender && data.position` (JS
  truthiness) and by `room.players.has(data.sender)`, falling through to the
  success response without mutating anything when the guard fails. -/
def post (rs : Rooms) (roomId : String) (a : Action) : Rooms × Response :=
  let rs0 := getOrCreateRoom rs roomId
  match a with
  | Action.add block sender =>
    let rs1 := updateRoom rs0 roomId (fun room => { room with blocks := room.blocks ++ [block] })
    match block with
    | none => (rs1, Response.serverError)
    | some b => (broadcastToRoom rs1 roomId (Event.add b sender), Response.success)
  | Action.remove blockId sender =>
    if (roomBlocksD rs0 roomId).any (fun ob => ob.isNone) then
      (rs0, Response.serverError)
    else
      let rs1 := updateRoom rs0 roomId (fun room =>
        { room with blocks := room.blocks.filter (fun ob => obId ob != blockId) })
      (broadcastToRoom rs1 roomId (Event.remove blockId sender), Response.success)
  | Action.clear =>
    let rs1 := updateRoom rs0 roomId (fun room => { room with blocks := [] })
    (broadcastToRoom rs1 roomId Event.clear, Response.success)
  | Action.update_position sender position =>
    if truthyStr sender then
      match sender, position with
      | some s, some pos =>
        match (roomPlayersD rs0 roomId).lookup s with
        | some _ =>
          let rs1 := updateRoom rs0 roomId (fun room =>
            { room with players := playersMove room.players s pos })
          (broadcastToRoom rs1 roomId (Event.player_moved s pos), Response.success)
        | none => (rs0, Response.success)
      | _, _ => (rs0, Response.success)
    else (rs0, Response.success)
  | Action.other _ => (rs0, Response.invalidAction)

/-- `req.nextUrl.searchParams.get('name') || 'Anonymous'`: an absent or empty
name falls back to the default (JS `||` on a falsy string). -/
def effectiveName : Option String → String
  | none => "Anonymous"
  | some s => if s = "" then "Anonymous" else s

/-- The GET handler for a new stream connection: resolve/create the room; if the
effective player name is not yet known, register a `Player` at the origin and
broadcast `player_joined` (with the post-insertion count) to the channels
attached so far; then enqueue the `init` snapshot (current blocks, current
players) on the new controller and add it to the client set. -/
def subscribe (rs : Rooms) (roomId : String) (nameParam : Option String) (cid : Nat) : Rooms :=
  let pname := effectiveName nameParam
  let rs0 := getOrCreateRoom rs roomId
  let rs1 :=
    if ((roomPlayersD rs0 roomId).lookup pname).isSome then rs0
    else
      let rsR := updateRoom rs0 roomId (fun room =>
        { room with players := playersSet room.players pname ⟨0, 0, 0, pname⟩ })
      broadcastToRoom rsR roomId
        (Event.player_joined pname (roomPlayersD rsR roomId).length)
  updateRoom rs1 roomId (fun room =>
    { room with clients := room.clients ++
        [⟨cid, false, [Event.init room.blocks (playersValues room.players)]⟩] })

/-- The abort listener registered by the GET handler: delete the controller from
the client set, delete the player under this connection's name, then broadcast
`player_left` with the post-removal player count. -/
def disconnect (rs : Rooms) (roomId : String) (cid : Nat) (pname : String) : Rooms :=
  match findRoom rs roomId with
  | none => rs
  | some _ =>
    let rs1 := updateRoom rs roomId (fun room =>
      { room with clients := room.clients.filter (fun c => c.cid != cid),
                  players := playersDelete room.players pname })
    broadcastToRoom rs1 roomId
      (Event.player_left pname (roomPlayersD rs1 roomId).length)

/-- A sequence of submissions `(roomId, action)` run through the POST handler. -/
def runPosts (rs : Rooms) (l : List (String × Action)) : Rooms :=
  l.foldl (fun rs p => (post rs p.1 p.2).1) rs

/-- Well-formed block actions: the add/remove alphabet of claim C1. -/
inductive BAct where
  | addB (b : Block)
  | removeB (i : String)
deriving DecidableEq

/-- The effect of a well-formed add/remove on the block list. -/
def bstep (bs : List Block) : BAct → List Block
  | BAct.addB b => bs ++ [b]
  | BAct.removeB i => bs.filter (fun b => b.id != i)

/-- The ids added by a block-action sequence. -/
def addedIds (l : List BAct) : List String :=
  l.filterMap (fun a => match a with | BAct.addB b => some b.id | _ => none)

/-- The ids removed by a block-action sequence. -/
def removedIds (l : List BAct) : List String :=
  l.filterMap (fun a => match a with | BAct.removeB i => some i | _ => none)

/-- No id is added again after a remove of that id. -/
def noReAdd : List BAct → Bool
  | [] => true
  | BAct.addB _ :: rest => noReAdd rest
  | BAct.removeB i :: rest =>
    rest.all (fun a => match a with | BAct.addB b => b.id != i | _ => true) && noReAdd rest

/-- Projection of a submission sequence onto the well-formed add/remove actions
targeting room `r`. -/
def projB (r : String) : List (String × Action) → List BAct
  | [] => []
  | (rid, a) :: rest =>
    (if rid = r then
      match a with
      | Action.add (some b) _ => [BAct.addB b]
      | Action.remove (some i) _ => [BAct.removeB i]
      | _ => []
    else []) ++ projB r rest

/-- Element-wise constraint of claim C1: every submission addressed to room `r`
is a well-formed `add`, a well-formed `remove`, or an `update_position`. -/
def okActC1 (r : String) (p : String × Action) : Bool :=
  if p.1 = r then
    match p.2 with
    | Action.add (some _) _ => true
    | Action.remove (some _) _ => true
    | Action.update_position _ _ => true
    | _ => false
  else true

/-! ### Basic registry lemmas -/

theorem updateRoom_cons (k0 : String) (r : Room) (rest : Rooms) (k : String)
    (f : Room → Room) :
    updateRoom ((k0, r) :: rest) k f =
      (if k0 = k then (k0, f r) else (k0, r)) :: updateRoom rest k f := rfl

theorem findRoom_updateRoom_self (rs : Rooms) (k : String) (f : Room → Room) :
    findRoom (updateRoom rs k f) k = (findRoom rs k).map f := by
  induction rs with
  | nil => rfl
  | cons p rest ih =>
    obtain ⟨k0, r⟩ := p
    rw [updateRoom_cons]
    by_cases h : k0 = k
    · rw [if_pos h]
      simp [findRoom, h]
    · rw [if_neg h]
      simp [findRoom, h, ih]

theorem findRoom_updateRoom_ne (rs : Rooms) (k k' : String) (f : Room → Room)
    (h : k ≠ k') : findRoom (updateRoom rs k f) k' = findRoom rs k' := by
  induction rs with
  | nil => rfl
  | cons p rest ih =>
    obtain ⟨k0, r⟩ := p
    rw [updateRoom_cons]
    by_cases h0 : k0 = k
    · rw [if_pos h0]
      have h1 : k0 ≠ k' := h0 ▸ h
      simp [findRoom, h1, ih]
    · rw [if_neg h0]
      by_cases h1 : k0 = k' <;> simp [findRoom, h1, ih]

theorem findRoom_append (rs : Rooms) (k k' : String) (r : Room) :
    findRoom (rs ++ [(k, r)]) k' =
      ((findRoom rs k').orElse (fun _ => if k = k' then some r else none)) := by
  induction rs with
  | nil => by_cases h : k = k' <;> simp [findRoom, h]
  | cons p rest ih =>
    obtain ⟨k0, r0⟩ := p
    by_cases h0 : k0 = k' <;> simp [findRoom, h0, ih]

theorem findRoom_getOrCreateRoom_self (rs : Rooms) (k : String) :
    findRoom (getOrCreateRoom rs k) k = some ((findRoom rs k).getD emptyRoom) := by
  unfold getOrCreateRoom
  cases h : findRoom rs k with
  | some r => simp [h]
  | none => simp [findRoom_append, h]

theorem findRoom_getOrCreateRoom_ne (rs : Rooms) (k k' : String) (h : k ≠ k') :
    findRoom (getOrCreateRoom rs k) k' = findRoom rs k' := by
  unfold getOrCreateRoom
  cases h0 : findRoom rs k with
  | some r => rfl
  | none => cases h1 : findRoom rs k' <;> simp [findRoom_append, h1, h]

theorem findRoom_broadcastToRoom_self (rs : Rooms) (k : String) (e : Event) :
    findRoom (broadcastToRoom rs k e) k =
      (findRoom rs k).map (fun room => { room with clients := deliver e room.clients }) := by
  unfold broadcastToRoom
  cases h : findRoom rs k with
  | none => simp [h]
  | some r => simp [findRoom_updateRoom_self, h]

theorem findRoom_broadcastToRoom_ne (rs : Rooms) (k k' : String) (e : Event)
    (h : k ≠ k') : findRoom (broadcastToRoom rs k e) k' = findRoom rs k' := by
  unfold broadcastToRoom
  cases h0 : findRoom rs k with
  | none => rfl
  | some r => exact findRoom_updateRoom_ne rs k k' _ h

/-- Closed form of the broadcast loop: the frame reaches every non-broken
channel and the broken channels are deleted; the loop itself never throws. -/
theorem deliver_eq (e : Event) (cs : List Channel) :
    deliver e cs =
      (cs.filter (fun c => !c.broken)).map
        (fun c => { c with buffer := c.buffer ++ [e] }) := by
  induction cs with
  | nil => rfl
  | cons c rest ih =>
    cases h : c.broken <;> simp [deliver, enqueue, h, ih]

/-! ### Stability of the room components under each registry operation -/

theorem roomBlocksD_getOrCreateRoom (rs : Rooms) (k r : String) :
    roomBlocksD (getOrCreateRoom rs k) r = roomBlocksD rs r := by
  by_cases h : k = r
  · subst h
    rw [roomBlocksD, findRoom_getOrCreateRoom_self]
    cases h0 : findRoom rs k <;> simp [roomBlocksD, h0, emptyRoom]
  · rw [roomBlocksD, findRoom_getOrCreateRoom_ne rs k r h]; rfl

theorem roomPlayersD_getOrCreateRoom (rs : Rooms) (k r : String) :
    roomPlayersD (getOrCreateRoom rs k) r = roomPlayersD rs r := by
  by_cases h : k = r
  · subst h
    rw [roomPlayersD, findRoom_getOrCreateRoom_self]
    cases h0 : findRoom rs k <;> simp [roomPlayersD, h0, emptyRoom]
  · rw [roomPlayersD, findRoom_getOrCreateRoom_ne rs k r h]; rfl

theorem roomClientsD_getOrCreateRoom (rs : Rooms) (k r : String) :
    roomClientsD (getOrCreateRoom rs k) r = roomClientsD rs r := by
  by_cases h : k = r
  · subst h
    rw [roomClientsD, findRoom_getOrCreateRoom_self]
    cases h0 : findRoom rs k <;> simp [roomClientsD, h0, emptyRoom]
  · rw [roomClientsD, findRoom_getOrCreateRoom_ne rs k r h]; rfl

theorem roomBlocksD_updateRoom_ne (rs : Rooms) (k r : String) (f : Room → Room)
    (h : k ≠ r) : roomBlocksD (updateRoom rs k f) r = roomBlocksD rs r := by
  rw [roomBlocksD, findRoom_updateRoom_ne rs k r f h]; rfl

theorem roomPlayersD_updateRoom_ne (rs : Rooms) (k r : String) (f : Room → Room)
    (h : k ≠ r) : roomPlayersD (updateRoom rs k f) r = roomPlayersD rs r := by
  rw [roomPlayersD, findRoom_updateRoom_ne rs k r f h]; rfl

theorem roomClientsD_updateRoom_ne (rs : Rooms) (k r : String) (f : Room → Room)
    (h : k ≠ r) : roomClientsD (updateRoom rs k f) r = roomClientsD rs r := by
  rw [roomClientsD, findRoom_updateRoom_ne rs k r f h]; rfl

theorem roomBlocksD_updateRoom_self_eq (rs : Rooms) (k : String) (f : Room → Room)
    (hf : ∀ room, (f room).blocks = room.blocks) :
    roomBlocksD (updateRoom rs k f) k = roomBlocksD rs k := by
  rw [roomBlocksD, findRoom_updateRoom_self]
  cases h : findRoom rs k <;> simp [roomBlocksD, h, hf]

theorem roomPlayersD_updateRoom_self_eq (rs : Rooms) (k : String) (f : Room → Room)
    (hf : ∀ room, (f room).players = room.players) :
    roomPlayersD (updateRoom rs k f) k = roomPlayersD rs k := by
  rw [roomPlayersD, findRoom_updateRoom_self]
  cases h : findRoom rs k <;> simp [roomPlayersD, h, hf]

theorem roomClientsD_updateRoom_self_eq (rs : Rooms) (k : String) (f : Room → Room)
    (hf : ∀ room, (f room).clients = room.clients) :
    roomClientsD (updateRoom rs k f) k = roomClientsD rs k := by
  rw [roomClientsD, findRoom_updateRoom_self]
  cases h : findRoom rs k <;> simp [roomClientsD, h, hf]

theorem roomBlocksD_broadcastToRoom (rs : Rooms) (k : String) (e : Event) (r : String) :
    roomBlocksD (broadcastToRoom rs k e) r = roomBlocksD rs r := by
  by_cases h : k = r
  · subst h
    rw [roomBlocksD, findRoom_broadcastToRoom_self]
    cases h0 : findRoom rs k <;> simp [roomBlocksD, h0]
  · rw [roomBlocksD, findRoom_broadcastToRoom_ne rs k r e h]; rfl

theorem roomPlayersD_broadcastToRoom (rs : Rooms) (k : String) (e : Event) (r : String) :
    roomPlayersD (broadcastToRoom rs k e) r = roomPlayersD rs r := by
  by_cases h : k = r
  · subst h
    rw [roomPlayersD, findRoom_broadcastToRoom_self]
    cases h0 : findRoom rs k <;> simp [roomPlayersD, h0]
  · rw [roomPlayersD, findRoom_broadcastToRoom_ne rs k r e h]; rfl

theorem roomClientsD_broadcastToRoom_ne (rs : Rooms) (k r : String) (e : Event)
    (h : k ≠ r) : roomClientsD (broadcastToRoom rs k e) r = roomClientsD rs r := by
  rw [roomClientsD, findRoom_broadcastToRoom_ne rs k r e h]; rfl

theorem roomClientsD_broadcastToRoom_self (rs : Rooms) (k : String) (e : Event)
    (h : (findRoom rs k).isSome) :
    roomClientsD (broadcastToRoom rs k e) k = deliver e (roomClientsD rs k) := by
  obtain ⟨R0, h0⟩ := Option.isSome_iff_exists.mp h
  rw [roomClientsD, findRoom_broadcastToRoom_self]
  simp [roomClientsD, h0]

/-! ### Effect of one POST on the blocks of the targeted room -/

/-- The blocks array of the targeted room after one POST, as a function of the
blocks array before it. -/
def postBlockStep (bs : List (Option Block)) : Action → List (Option Block)
  | Action.add b _ => bs ++ [b]
  | Action.remove i _ =>
    if bs.any (fun ob => ob.isNone) then bs else bs.filter (fun ob => obId ob != i)
  | Action.clear => []
  | Action.update_position _ _ => bs
  | Action.other _ => bs

theorem roomBlocksD_post (rs : Rooms) (roomId : String) (a : Action) (r : String) :
    roomBlocksD (post rs roomId a).1 r =
      if roomId = r then postBlockStep (roomBlocksD rs roomId) a
      else roomBlocksD rs r := by
  cases a with
  | add b s =>
    have key : ∀ rs2 : Rooms,
        rs2 = updateRoom (getOrCreateRoom rs roomId) roomId
          (fun room => { room with blocks := room.blocks ++ [b] }) →
        roomBlocksD rs2 r =
          if roomId = r then postBlockStep (roomBlocksD rs roomId) (Action.add b s)
          else roomBlocksD rs r := by
      intro rs2 h2
      subst h2
      by_cases h : roomId = r
      · subst h
        rw [roomBlocksD, findRoom_updateRoom_self, findRoom_getOrCreateRoom_self]
        cases h0 : findRoom rs roomId <;>
          simp [roomBlocksD, h0, emptyRoom, postBlockStep]
      · rw [roomBlocksD_updateRoom_ne _ _ _ _ h, roomBlocksD_getOrCreateRoom, if_neg h]
    cases b with
    | none => simpa only [post] using key _ rfl
    | some blk =>
      simp only [post]
      rw [roomBlocksD_broadcastToRoom]
      exact key _ rfl
  | remove i s =>
    simp only [post]
    rw [roomBlocksD_getOrCreateRoom rs roomId roomId]
    by_cases hc : (roomBlocksD rs roomId).any (fun ob => ob.isNone)
    · rw [if_pos hc]
      by_cases h : roomId = r
      · subst h
        rw [roomBlocksD_getOrCreateRoom, if_pos rfl]
        simp only [postBlockStep]
        rw [if_pos hc]
      · rw [roomBlocksD_getOrCreateRoom, if_neg h]
    · rw [if_neg hc]
      rw [roomBlocksD_broadcastToRoom]
      by_cases h : roomId = r
      · subst h
        rw [if_pos rfl]
        simp only [postBlockStep]
        rw [if_neg hc]
        rw [roomBlocksD, findRoom_updateRoom_self, findRoom_getOrCreateRoom_self]
        cases h0 : findRoom rs roomId <;> simp [roomBlocksD, h0, emptyRoom]
      · rw [roomBlocksD_updateRoom_ne _ _ _ _ h, roomBlocksD_getOrCreateRoom, if_neg h]
  | clear =>
    simp only [post]
    rw [roomBlocksD_broadcastToRoom]
    by_cases h : roomId = r
    · subst h
      rw [roomBlocksD, findRoom_updateRoom_self, findRoom_getOrCreateRoom_self]
      cases h0 : findRoom rs roomId <;>
        simp [roomBlocksD, h0, emptyRoom, postBlockStep]
    · rw [roomBlocksD_updateRoom_ne _ _ _ _ h, roomBlocksD_getOrCreateRoom, if_neg h]
  | update_position s pos =>
    have hbase : roomBlocksD (getOrCreateRoom rs roomId) r =
        if roomId = r then postBlockStep (roomBlocksD rs roomId) (Action.update_position s pos)
        else roomBlocksD rs r := by
      rw [roomBlocksD_getOrCreateRoom]
      by_cases h : roomId = r <;> simp [postBlockStep, h]
    cases s with
    | none => simpa only [post, truthyStr, Bool.false_eq_true, if_false] using hbase
    | some str =>
      by_cases hstr : str = ""
      · simp only [post, truthyStr, hstr]
        simpa using hbase
      · cases pos with
        | none =>
          simp only [post, truthyStr]
          rw [if_pos (by simp [hstr])]
          exact hbase
        | some p =>
          simp only [post, truthyStr]
          rw [if_pos (by simp [hstr])]
          cases hl : (roomPlayersD (getOrCreateRoom rs roomId) roomId).lookup str with
          | none => exact hbase
          | some q =>
            rw [roomBlocksD_broadcastToRoom]
            by_cases h : roomId = r
            · subst h
              rw [roomBlocksD_updateRoom_self_eq]
              · rw [roomBlocksD_getOrCreateRoom]
                simp [postBlockStep]
              · intro room; rfl
            · rw [roomBlocksD_updateRoom_ne _ _ _ _ h, roomBlocksD_getOrCreateRoom,
                if_neg h]
  | other tag =>
    simp only [post]
    rw [roomBlocksD_getOrCreateRoom]
    by_cases h : roomId = r <;> simp [postBlockStep, h]

/-! ### The add/remove algebra of block sequences (claim C1) -/

theorem noReAdd_append_left (l1 l2 : List BAct) (h : noReAdd (l1 ++ l2) = true) :
    noReAdd l1 = true := by
  induction l1 with
  | nil => rfl
  | cons a t ih =>
    cases a with
    | addB b => exact ih h
    | removeB i =>
      rw [List.cons_append, noReAdd, Bool.and_eq_true, List.all_append,
        Bool.and_eq_true] at h
      rw [noReAdd, Bool.and_eq_true]
      exact ⟨h.1.1, ih h.2⟩

theorem noReAdd_snoc_addB (l : List BAct) (b : Block)
    (h : noReAdd (l ++ [BAct.addB b]) = true) : b.id ∉ removedIds l := by
  induction l with
  | nil => simp [removedIds]
  | cons a t ih =>
    cases a with
    | addB b' =>
      rw [List.cons_append, noReAdd] at h
      simpa [removedIds] using ih h
    | removeB i =>
      rw [List.cons_append, noReAdd, Bool.and_eq_true, List.all_append] at h
      have hlast : b.id ≠ i := by
        have := h.1
        rw [Bool.and_eq_true] at this
        have h2 := this.2
        rw [List.all_cons] at h2
        have h3 : (b.id != i) = true := by
          simpa using (Bool.and_eq_true _ _ |>.mp h2).1
        exact bne_iff_ne.mp h3
      simp only [removedIds, List.filterMap_cons]
      simp only [List.mem_cons]
      rintro (rfl | hmem)
      · exact hlast rfl
      · exact ih h.2 hmem

theorem addedIds_snocA (t : List BAct) (b : Block) :
    addedIds (t ++ [BAct.addB b]) = addedIds t ++ [b.id] := by
  rw [addedIds, addedIds, List.filterMap_append]
  rfl

theorem removedIds_snocA (t : List BAct) (b : Block) :
    removedIds (t ++ [BAct.addB b]) = removedIds t := by
  rw [removedIds, removedIds, List.filterMap_append]
  simp

theorem addedIds_snocR (t : List BAct) (i : String) :
    addedIds (t ++ [BAct.removeB i]) = addedIds t := by
  rw [addedIds, addedIds, List.filterMap_append]
  simp

theorem removedIds_snocR (t : List BAct) (i : String) :
    removedIds (t ++ [BAct.removeB i]) = removedIds t ++ [i] := by
  rw [removedIds, removedIds, List.filterMap_append]
  rfl

theorem bstep_fold_mem (bl : List BAct) (h : noReAdd bl = true) (x : String) :
    x ∈ (List.foldl bstep [] bl).map Block.id ↔
      (x ∈ addedIds bl ∧ x ∉ removedIds bl) := by
  induction bl using List.reverseRecOn with
  | nil => simp [addedIds]
  | append_singleton t a ih =>
    have ht : noReAdd t = true := noReAdd_append_left t [a] h
    have ih' := ih ht
    cases a with
    | addB b =>
      have hb : b.id ∉ removedIds t := noReAdd_snoc_addB t b h
      rw [List.foldl_append, addedIds_snocA, removedIds_snocA]
      simp only [List.foldl_cons, List.foldl_nil, bstep, List.map_append,
        List.map_cons, List.map_nil, List.mem_append, List.mem_cons,
        List.not_mem_nil, or_false]
      by_cases hx : x = b.id
      · subst hx
        simp [hb]
      · simp only [hx, or_false]
        exact ih'
    | removeB i =>
      rw [List.foldl_append, addedIds_snocR, removedIds_snocR]
      simp only [List.foldl_cons, List.foldl_nil, bstep]
      have hmem : x ∈ (List.filter (fun b => b.id != i)
            (List.foldl bstep [] t)).map Block.id ↔
          (x ∈ (List.foldl bstep [] t).map Block.id ∧ x ≠ i) := by
        constructor
        · intro hx
          obtain ⟨b, hbf, rfl⟩ := List.mem_map.mp hx
          obtain ⟨hbm, hbp⟩ := List.mem_filter.mp hbf
          exact ⟨List.mem_map.mpr ⟨b, hbm, rfl⟩, bne_iff_ne.mp hbp⟩
        · rintro ⟨hx, hne⟩
          obtain ⟨b, hbm, rfl⟩ := List.mem_map.mp hx
          exact List.mem_map.mpr
            ⟨b, List.mem_filter.mpr ⟨hbm, bne_iff_ne.mpr hne⟩, rfl⟩
      rw [hmem, ih']
      constructor
      · rintro ⟨⟨ha, hr⟩, hne⟩
        refine ⟨ha, ?_⟩
        simp only [List.mem_append, List.mem_singleton]
        rintro (hc | hc)
        · exact hr hc
        · exact hne hc
      · rintro ⟨ha, hr⟩
        simp only [List.mem_append, List.mem_singleton] at hr
        push_neg at hr
        exact ⟨⟨ha, hr.1⟩, hr.2⟩

/-- Bridging lemma: over a submission sequence whose actions addressed to room
`r` are well-formed adds/removes or position updates, the blocks of room `r`
evolve by the pure fold of the projected block actions. -/
theorem runPosts_blocks (r : String) (l : List (String × Action)) :
    ∀ (rs : Rooms) (bs : List Block),
      (∀ p ∈ l, okActC1 r p = true) →
      roomBlocksD rs r = bs.map some →
      roomBlocksD (runPosts rs l) r = (List.foldl bstep bs (projB r l)).map some := by
  induction l with
  | nil =>
    intro rs bs _ hb
    simpa [runPosts, projB] using hb
  | cons p t ih =>
    intro rs bs h hb
    obtain ⟨rid, a⟩ := p
    have hok : okActC1 r (rid, a) = true := h _ (List.mem_cons_self _ _)
    have ht : ∀ q ∈ t, okActC1 r q = true := fun q hq => h q (List.mem_cons_of_mem _ hq)
    have hrun : runPosts rs ((rid, a) :: t) = runPosts (post rs rid a).1 t := rfl
    rw [hrun]
    by_cases hr : rid = r
    · subst hr
      cases a with
      | add b s =>
        cases b with
        | none => simp [okActC1] at hok
        | some blk =>
          have hnew : roomBlocksD (post rs rid (Action.add (some blk) s)).1 rid =
              (bs ++ [blk]).map some := by
            rw [roomBlocksD_post, if_pos rfl]
            simp [postBlockStep, hb]
          have hproj : projB rid ((rid, Action.add (some blk) s) :: t) =
              BAct.addB blk :: projB rid t := by simp [projB]
          rw [hproj]
          simp only [List.foldl_cons, bstep]
          exact ih _ (bs ++ [blk]) ht hnew
      | remove i s =>
        cases i with
        | none => simp [okActC1] at hok
        | some iid =>
          have hnew : roomBlocksD (post rs rid (Action.remove (some iid) s)).1 rid =
              (bs.filter (fun b => b.id != iid)).map some := by
            rw [roomBlocksD_post, if_pos rfl]
            simp only [postBlockStep, hb]
            rw [if_neg (by simp), List.filter_map]
            rfl
          have hproj : projB rid ((rid, Action.remove (some iid) s) :: t) =
              BAct.removeB iid :: projB rid t := by simp [projB]
          rw [hproj]
          simp only [List.foldl_cons, bstep]
          exact ih _ (bs.filter (fun b => b.id != iid)) ht hnew
      | update_position s pos =>
        have hnew : roomBlocksD (post rs rid (Action.update_position s pos)).1 rid =
            bs.map some := by
          rw [roomBlocksD_post, if_pos rfl]
          simpa [postBlockStep] using hb
        have hproj : projB rid ((rid, Action.update_position s pos) :: t) =
            projB rid t := by simp [projB]
        rw [hproj]
        exact ih _ bs ht hnew
      | clear => simp [okActC1] at hok
      | other tag => simp [okActC1] at hok
    · have hnew : roomBlocksD (post rs rid a).1 r = bs.map some := by
        rw [roomBlocksD_post, if_neg hr]
        exact hb
      have hproj : projB r ((rid, a) :: t) = projB r t := by simp [projB, hr]
      rw [hproj]
      exact ih _ bs ht hnew

/-- **C1, counterexample.** The claim as stated — for *every* sequence of add and
remove actions on an initially empty room, the set of block ids afterwards equals
the set of ids added minus the set of ids removed — is false: after
`add b1; remove b1; add b1` the room contains `b1`, yet `b1` lies in both the
added and the removed id sets, so the claimed set equation fails. -/
theorem C1_counterexample :
    ¬ ("b1" ∈ blockIdsD
          (runPosts []
            [("room", Action.add (some ⟨0, 0, 0, none, none, "b1"⟩) none),
             ("room", Action.remove (some "b1") none),
             ("room", Action.add (some ⟨0, 0, 0, none, none, "b1"⟩) none)]) "room" ↔
        ("b1" ∈ addedIds (projB "room"
            [("room", Action.add (some ⟨0, 0, 0, none, none, "b1"⟩) none),
             ("room", Action.remove (some "b1") none),
             ("room", Action.add (some ⟨0, 0, 0, none, none, "b1"⟩) none)]) ∧
         "b1" ∉ removedIds (projB "room"
            [("room", Action.add (some ⟨0, 0, 0, none, none, "b1"⟩) none),
             ("room", Action.remove (some "b1") none),
             ("room", Action.add (some ⟨0, 0, 0, none, none, "b1"⟩) none)]))) := by
  decide

/-- **C1 (amended).** For every sequence of submissions whose actions addressed
to room `r` are well-formed adds/removes or `update_position` actions (actions on
other room keys are unrestricted), *provided no id is added again after a remove
of that id*, the set of block ids in room `r` after running the sequence through
the Submission Endpoint on an empty registry equals the ids added minus the ids
removed; interleaved `update_position` actions and actions targeting other room
keys do not change this result. -/
theorem C1_amended_theorem (r : String) (l : List (String × Action))
    (hok : ∀ p ∈ l, okActC1 r p = true)
    (hre : noReAdd (projB r l) = true) (x : String) :
    x ∈ blockIdsD (runPosts [] l) r ↔
      (x ∈ addedIds (projB r l) ∧ x ∉ removedIds (projB r l)) := by
  have hrun := runPosts_blocks r l [] [] hok (by simp [roomBlocksD, findRoom])
  rw [blockIdsD, hrun]
  have hmap : (List.map some (List.foldl bstep [] (projB r l))).filterMap obId =
      (List.foldl bstep [] (projB r l)).map Block.id := by
    rw [List.filterMap_map]
    have hcomp : obId ∘ some = some ∘ Block.id := rfl
    rw [hcomp, List.filterMap_eq_map]
  rw [hmap]
  exact bstep_fold_mem _ hre x

/-- Witness for C1 (amended) at a concrete mixed sequence: an add on the room, a
clear on a different room key, an update_position on the room, and a remove of an
id that was never added. -/
theorem C1_amended_witness :
    (∀ p ∈ [("room", Action.add (some ⟨0, 0, 0, none, none, "b1"⟩) none),
            ("other", Action.clear),
            ("room", Action.update_position (some "Alice") (some ⟨1, 2, 3⟩)),
            ("room", Action.remove (some "zz") none)], okActC1 "room" p = true) ∧
    noReAdd (projB "room"
        [("room", Action.add (some ⟨0, 0, 0, none, none, "b1"⟩) none),
         ("other", Action.clear),
         ("room", Action.update_position (some "Alice") (some ⟨1, 2, 3⟩)),
         ("room", Action.remove (some "zz") none)]) = true ∧
    ("b1" ∈ blockIdsD
        (runPosts []
          [("room", Action.add (some ⟨0, 0, 0, none, none, "b1"⟩) none),
           ("other", Action.clear),
           ("room", Action.update_position (some "Alice") (some ⟨1, 2, 3⟩)),
           ("room", Action.remove (some "zz") none)]) "room" ↔
      ("b1" ∈ addedIds (projB "room"
          [("room", Action.add (some ⟨0, 0, 0, none, none, "b1"⟩) none),
           ("other", Action.clear),
           ("room", Action.update_position (some "Alice") (some ⟨1, 2, 3⟩)),
           ("room", Action.remove (some "zz") none)]) ∧
       "b1" ∉ removedIds (projB "room"
          [("room", Action.add (some ⟨0, 0, 0, none, none, "b1"⟩) none),
           ("other", Action.clear),
           ("room", Action.update_position (some "Alice") (some ⟨1, 2, 3⟩)),
           ("room", Action.remove (some "zz") none)]))) :=
  ⟨by decide, by decide,
    C1_amended_theorem "room" _ (by decide) (by decide) "b1"⟩

/-- **C3.** If a write to one attached channel fails during a broadcast (the
channel is broken), the broadcast still completes (it is a total function — the
per-channel failure is caught inside the loop), the frame is delivered to every
other attached non-broken channel, and the failing channel is removed from the
room's subscriber set. -/
theorem C3_broadcast_self_heals (rs : Rooms) (k : String) (e : Event) (c : Channel)
    (hc : c ∈ roomClientsD rs k) (hb : c.broken = true) :
    roomClientsD (broadcastToRoom rs k e) k =
        ((roomClientsD rs k).filter (fun x => !x.broken)).map
          (fun x => { x with buffer := x.buffer ++ [e] }) ∧
      c ∉ roomClientsD (broadcastToRoom rs k e) k ∧
      (∀ x ∈ roomClientsD rs k, x.broken = false →
        { x with buffer := x.buffer ++ [e] } ∈ roomClientsD (broadcastToRoom rs k e) k) := by
  have hroom : (findRoom rs k).isSome := by
    cases h0 : findRoom rs k with
    | none => simp [roomClientsD, h0] at hc
    | some _ => simp
  have heq : roomClientsD (broadcastToRoom rs k e) k =
      ((roomClientsD rs k).filter (fun x => !x.broken)).map
        (fun x => { x with buffer := x.buffer ++ [e] }) := by
    rw [roomClientsD_broadcastToRoom_self rs k e hroom, deliver_eq]
  refine ⟨heq, ?_, ?_⟩
  · rw [heq]
    intro hmem
    obtain ⟨x, hxf, hxe⟩ := List.mem_map.mp hmem
    have hxb : x.broken = false := by
      have := (List.mem_filter.mp hxf).2
      simpa using this
    have : c.broken = false := by rw [← hxe]; exact hxb
    rw [hb] at this
    exact Bool.true_eq_false.mp this
  · intro x hx hxb
    rw [heq]
    exact List.mem_map.mpr ⟨x, List.mem_filter.mpr ⟨hx, by simp [hxb]⟩, rfl⟩

/-- Witness for C3: a room with one healthy and one broken channel; the broken
channel is removed and the healthy one receives the frame. -/
theorem C3_broadcast_witness :
    ⟨1, true, []⟩ ∈ roomClientsD [("room", ⟨[], [⟨0, false, []⟩, ⟨1, true, []⟩], []⟩)] "room" ∧
    (Channel.broken ⟨1, true, []⟩ = true) ∧
    (roomClientsD (broadcastToRoom
          [("room", ⟨[], [⟨0, false, []⟩, ⟨1, true, []⟩], []⟩)] "room" Event.clear) "room" =
        ((roomClientsD [("room", ⟨[], [⟨0, false, []⟩, ⟨1, true, []⟩], []⟩)] "room").filter
            (fun x => !x.broken)).map
          (fun x => { x with buffer := x.buffer ++ [Event.clear] }) ∧
      (⟨1, true, []⟩ : Channel) ∉ roomClientsD (broadcastToRoom
          [("room", ⟨[], [⟨0, false, []⟩, ⟨1, true, []⟩], []⟩)] "room" Event.clear) "room" ∧
      (∀ x ∈ roomClientsD [("room", ⟨[], [⟨0, false, []⟩, ⟨1, true, []⟩], []⟩)] "room",
        x.broken = false →
        { x with buffer := x.buffer ++ [Event.clear] } ∈
          roomClientsD (broadcastToRoom
            [("room", ⟨[], [⟨0, false, []⟩, ⟨1, true, []⟩], []⟩)] "room" Event.clear) "room")) :=
  ⟨by decide, by decide,
    C3_broadcast_self_heals [("room", ⟨[], [⟨0, false, []⟩, ⟨1, true, []⟩], []⟩)]
      "room" Event.clear ⟨1, true, []⟩ (by decide) (by decide)⟩

/-! ### Closed form of the subscribe handler -/

theorem playersSet_of_lookup_none (ps : List (String × Player)) (n : String) (p : Player)
    (h : ps.lookup n = none) : playersSet ps n p = ps ++ [(n, p)] := by
  induction ps with
  | nil => rfl
  | cons q rest ih =>
    obtain ⟨n', p'⟩ := q
    rw [List.lookup_cons] at h
    cases hb : n == n' with
    | true => rw [hb] at h; cases h
    | false =>
      rw [hb] at h
      have hne : n' ≠ n := fun he => by simp [he] at hb
      rw [playersSet, if_neg hne, ih h, List.cons_append]

/-- The room state produced by one subscribe on a room previously in state `R`,
with effective player name `pn` and a fresh controller `cid`. -/
def subscribeRoom (R : Room) (pn : String) (cid : Nat) : Room :=
  if (R.players.lookup pn).isSome then
    { R with clients := R.clients ++
        [⟨cid, false, [Event.init R.blocks (playersValues R.players)]⟩] }
  else
    { R with
        players := R.players ++ [(pn, ⟨0, 0, 0, pn⟩)],
        clients := deliver (Event.player_joined pn (R.players.length + 1)) R.clients ++
          [⟨cid, false,
            [Event.init R.blocks (playersValues (R.players ++ [(pn, ⟨0, 0, 0, pn⟩)]))]⟩] }

theorem findRoom_subscribe_self (rs : Rooms) (roomId : String) (nm : Option String)
    (cid : Nat) :
    findRoom (subscribe rs roomId nm cid) roomId =
      some (subscribeRoom ((findRoom rs roomId).getD emptyRoom) (effectiveName nm) cid) := by
  have h0 : findRoom (getOrCreateRoom rs roomId) roomId =
      some ((findRoom rs roomId).getD emptyRoom) :=
    findRoom_getOrCreateRoom_self rs roomId
  have hps : roomPlayersD (getOrCreateRoom rs roomId) roomId =
      ((findRoom rs roomId).getD emptyRoom).players := by
    simp [roomPlayersD, h0]
  simp only [subscribe]
  rw [hps]
  by_cases hl : (((findRoom rs roomId).getD emptyRoom).players.lookup
      (effectiveName nm)).isSome
  · rw [if_pos hl, subscribeRoom, if_pos hl, findRoom_updateRoom_self, h0]
    rfl
  · rw [if_neg hl, subscribeRoom, if_neg hl]
    have hnone : ((findRoom rs roomId).getD emptyRoom).players.lookup
        (effectiveName nm) = none := Option.not_isSome_iff_eq_none.mp hl
    have hset : playersSet ((findRoom rs roomId).getD emptyRoom).players
        (effectiveName nm) ⟨0, 0, 0, effectiveName nm⟩ =
        ((findRoom rs roomId).getD emptyRoom).players ++
          [(effectiveName nm, ⟨0, 0, 0, effectiveName nm⟩)] :=
      playersSet_of_lookup_none _ _ _ hnone
    have hcnt : roomPlayersD (updateRoom (getOrCreateRoom rs roomId) roomId
        (fun room =>
          { room with
              players := playersSet room.players (effectiveName nm) ⟨0, 0, 0, effectiveName nm⟩ })) roomId =
        ((findRoom rs roomId).getD emptyRoom).players ++
          [(effectiveName nm, ⟨0, 0, 0, effectiveName nm⟩)] := by
      rw [roomPlayersD, findRoom_updateRoom_self, h0]
      simp [hset]
    rw [hcnt]
    rw [findRoom_updateRoom_self, findRoom_broadcastToRoom_self,
      findRoom_updateRoom_self, h0]
    simp [hset]

theorem findRoom_subscribe_ne (rs : Rooms) (roomId r : String) (nm : Option String)
    (cid : Nat) (h : roomId ≠ r) :
    findRoom (subscribe rs roomId nm cid) r = findRoom rs r := by
  simp only [subscribe]
  by_cases hl : ((roomPlayersD (getOrCreateRoom rs roomId) roomId).lookup
      (effectiveName nm)).isSome
  · rw [if_pos hl, findRoom_updateRoom_ne _ _ _ _ h,
      findRoom_getOrCreateRoom_ne _ _ _ h]
  · rw [if_neg hl, findRoom_updateRoom_ne _ _ _ _ h,
      findRoom_broadcastToRoom_ne _ _ _ _ h, findRoom_updateRoom_ne _ _ _ _ h,
      findRoom_getOrCreateRoom_ne _ _ _ h]

theorem getD_blocks (rs : Rooms) (k : String) :
    ((findRoom rs k).getD emptyRoom).blocks = roomBlocksD rs k := by
  cases h : findRoom rs k <;> simp [roomBlocksD, h, emptyRoom]

theorem getD_players (rs : Rooms) (k : String) :
    ((findRoom rs k).getD emptyRoom).players = roomPlayersD rs k := by
  cases h : findRoom rs k <;> simp [roomPlayersD, h, emptyRoom]

theorem getD_clients (rs : Rooms) (k : String) :
    ((findRoom rs k).getD emptyRoom).clients = roomClientsD rs k := by
  cases h : findRoom rs k <;> simp [roomClientsD, h, emptyRoom]

theorem roomBlocksD_subscribe_self (rs : Rooms) (roomId : String) (nm : Option String)
    (cid : Nat) :
    roomBlocksD (subscribe rs roomId nm cid) roomId = roomBlocksD rs roomId := by
  rw [roomBlocksD, findRoom_subscribe_self]
  rw [subscribeRoom]
  by_cases hl : ((((findRoom rs roomId).getD emptyRoom).players.lookup
      (effectiveName nm)).isSome) = true
  · rw [if_pos hl]
    simpa using getD_blocks rs roomId
  · rw [if_neg hl]
    simpa using getD_blocks rs roomId

theorem roomPlayersD_subscribe_self (rs : Rooms) (roomId : String) (nm : Option String)
    (cid : Nat) :
    roomPlayersD (subscribe rs roomId nm cid) roomId =
      (if ((roomPlayersD rs roomId).lookup (effectiveName nm)).isSome then
        roomPlayersD rs roomId
      else roomPlayersD rs roomId ++ [(effectiveName nm, ⟨0, 0, 0, effectiveName nm⟩)]) := by
  rw [roomPlayersD, findRoom_subscribe_self, subscribeRoom, ← getD_players rs roomId]
  by_cases hl : ((((findRoom rs roomId).getD emptyRoom).players.lookup
      (effectiveName nm)).isSome) = true
  · rw [if_pos hl, if_pos hl]
    rfl
  · rw [if_neg hl, if_neg hl]
    rfl

theorem roomClientsD_subscribe_self (rs : Rooms) (roomId : String) (nm : Option String)
    (cid : Nat) :
    roomClientsD (subscribe rs roomId nm cid) roomId =
      (subscribeRoom ((findRoom rs roomId).getD emptyRoom) (effectiveName nm) cid).clients := by
  rw [roomClientsD, findRoom_subscribe_self]
  rfl

theorem lookup_append (n : String) (l1 l2 : List (String × Player)) :
    List.lookup n (l1 ++ l2) =
      ((List.lookup n l1).orElse (fun _ => List.lookup n l2)) := by
  induction l1 with
  | nil => simp
  | cons q rest ih =>
    obtain ⟨k, v⟩ := q
    rw [List.cons_append, List.lookup_cons, List.lookup_cons]
    cases h : n == k <;> simp [ih]

/-- **C2.** A newly subscribing client receives, on its own channel only, a
single `init` event whose blocks and players are exactly the room's blocks and
players at the moment of subscription — the players including the Player just
registered for this connection: the new channel's buffer is exactly one `init`
frame carrying the pre-subscription blocks and the post-registration players;
every other channel of the room kept its old buffer with at most a
`player_joined` frame (never an `init`) appended; the room's blocks and every
other room are unchanged. Since the snapshot is taken from the room state at
subscription time, it is independent of how many events were broadcast before
the subscription existed. -/
theorem C2_init_snapshot (rs : Rooms) (roomId : String) (nm : Option String) (cid : Nat) :
    (∃ cs0,
      roomClientsD (subscribe rs roomId nm cid) roomId =
        cs0 ++ [⟨cid, false,
          [Event.init (roomBlocksD rs roomId)
            (playersValues (roomPlayersD (subscribe rs roomId nm cid) roomId))]⟩] ∧
      ∀ c ∈ cs0, ∃ c0 ∈ roomClientsD rs roomId,
        c.cid = c0.cid ∧
          (c.buffer = c0.buffer ∨
            c.buffer = c0.buffer ++
              [Event.player_joined (effectiveName nm)
                (roomPlayersD (subscribe rs roomId nm cid) roomId).length])) ∧
    ((roomPlayersD (subscribe rs roomId nm cid) roomId).lookup (effectiveName nm)).isSome
      = true ∧
    roomBlocksD (subscribe rs roomId nm cid) roomId = roomBlocksD rs roomId ∧
    (∀ r, roomId ≠ r → findRoom (subscribe rs roomId nm cid) r = findRoom rs r) := by
  have hcl := roomClientsD_subscribe_self rs roomId nm cid
  have hpl := roomPlayersD_subscribe_self rs roomId nm cid
  rw [subscribeRoom] at hcl
  by_cases hl : (((findRoom rs roomId).getD emptyRoom).players.lookup
      (effectiveName nm)).isSome = true
  · rw [if_pos hl] at hcl
    have hl' : ((roomPlayersD rs roomId).lookup (effectiveName nm)).isSome = true := by
      rw [← getD_players rs roomId]; exact hl
    rw [if_pos hl'] at hpl
    refine ⟨⟨roomClientsD rs roomId, ?_, ?_⟩, ?_,
      roomBlocksD_subscribe_self rs roomId nm cid,
      fun r hr => findRoom_subscribe_ne rs roomId r nm cid hr⟩
    · rw [hcl, hpl]
      simp only [getD_clients, getD_blocks, getD_players]
    · intro c hc
      exact ⟨c, hc, rfl, Or.inl rfl⟩
    · rw [hpl]; exact hl'
  · rw [if_neg hl] at hcl
    have hl' : ¬ ((roomPlayersD rs roomId).lookup (effectiveName nm)).isSome = true := by
      rw [← getD_players rs roomId]; exact hl
    rw [if_neg hl'] at hpl
    have hlen : (roomPlayersD (subscribe rs roomId nm cid) roomId).length =
        (roomPlayersD rs roomId).length + 1 := by
      rw [hpl]; simp
    refine ⟨⟨deliver (Event.player_joined (effectiveName nm)
        (((findRoom rs roomId).getD emptyRoom).players.length + 1))
        ((findRoom rs roomId).getD emptyRoom).clients, ?_, ?_⟩, ?_,
      roomBlocksD_subscribe_self rs roomId nm cid,
      fun r hr => findRoom_subscribe_ne rs roomId r nm cid hr⟩
    · rw [hcl, hpl]
      simp only [getD_blocks, getD_players]
    · intro c hc
      rw [deliver_eq] at hc
      obtain ⟨c0, hc0f, rfl⟩ := List.mem_map.mp hc
      have hc0 : c0 ∈ roomClientsD rs roomId := by
        rw [← getD_clients rs roomId]
        exact List.mem_of_mem_filter hc0f
      refine ⟨c0, hc0, rfl, Or.inr ?_⟩
      rw [hlen, getD_players rs roomId]
    · rw [hpl, lookup_append]
      cases hn : List.lookup (effectiveName nm) (roomPlayersD rs roomId) with
      | some v => simp [hn] at hl'
      | none => simp [hn, List.lookup_cons]

/-- A sample registry with one room holding one block, one attached channel and
one registered player. -/
def regC2 : Rooms :=
  [("room", ⟨[some ⟨0, 0, 0, none, none, "b1"⟩], [⟨0, false, []⟩],
    [("Bob", ⟨0, 0, 0, "Bob"⟩)]⟩)]

/-- Witness for C2 at a concrete room with a prior subscriber and player. -/
theorem C2_init_snapshot_witness :
    (∃ cs0,
      roomClientsD (subscribe regC2 "room" (some "Alice") 5) "room" =
        cs0 ++ [⟨5, false,
          [Event.init (roomBlocksD regC2 "room")
            (playersValues (roomPlayersD (subscribe regC2 "room" (some "Alice") 5) "room"))]⟩] ∧
      ∀ c ∈ cs0, ∃ c0 ∈ roomClientsD regC2 "room",
        c.cid = c0.cid ∧
          (c.buffer = c0.buffer ∨
            c.buffer = c0.buffer ++
              [Event.player_joined (effectiveName (some "Alice"))
                (roomPlayersD (subscribe regC2 "room" (some "Alice") 5) "room").length])) ∧
    ((roomPlayersD (subscribe regC2 "room" (some "Alice") 5) "room").lookup
        (effectiveName (some "Alice"))).isSome = true ∧
    roomBlocksD (subscribe regC2 "room" (some "Alice") 5) "room" = roomBlocksD regC2 "room" ∧
    (∀ r, "room" ≠ r →
      findRoom (subscribe regC2 "room" (some "Alice") 5) r = findRoom regC2 r) :=
  C2_init_snapshot regC2 "room" (some "Alice") 5

/-- **C5, counterexample.** The claim says a connection that supplies no display
name registers no Player and broadcasts no `player_joined`. In the code the
missing name falls back to `'Anonymous'`: after Alice subscribes and then a
nameless connection subscribes, the player map has grown by an `Anonymous`
entry and Alice's channel received a `player_joined "Anonymous"` frame. -/
theorem C5_counterexample :
    roomPlayersD (subscribe (subscribe [] "room" (some "Alice") 0) "room" none 1) "room" ≠
      roomPlayersD (subscribe [] "room" (some "Alice") 0) "room" ∧
    (roomClientsD (subscribe (subscribe [] "room" (some "Alice") 0) "room" none 1)
        "room").map Channel.buffer =
      [[Event.init [] [⟨0, 0, 0, "Alice"⟩], Event.player_joined "Anonymous" 2],
       [Event.init [] [⟨0, 0, 0, "Alice"⟩, ⟨0, 0, 0, "Anonymous"⟩]]] := by
  constructor
  · decide
  · decide

/-- **C5 (amended).** On a new stream connection a Player at the origin is
registered and `player_joined` (carrying the grown player count) is broadcast to
the previously attached non-broken channels if and only if the *effective*
display name — the supplied name, or `"Anonymous"` when the name is absent or
empty — is not already a known player; when the effective name is known, the
player map is unchanged and every previously attached channel keeps its buffer. -/
theorem C5_amended_theorem (rs : Rooms) (roomId : String) (nm : Option String)
    (cid : Nat) :
    ((roomPlayersD rs roomId).lookup (effectiveName nm) = none →
      roomPlayersD (subscribe rs roomId nm cid) roomId =
        roomPlayersD rs roomId ++ [(effectiveName nm, ⟨0, 0, 0, effectiveName nm⟩)] ∧
      (∀ x ∈ roomClientsD rs roomId, x.broken = false →
        { x with buffer := x.buffer ++ [Event.player_joined (effectiveName nm)
            ((roomPlayersD rs roomId).length + 1)] } ∈
          roomClientsD (subscribe rs roomId nm cid) roomId)) ∧
    (((roomPlayersD rs roomId).lookup (effectiveName nm)).isSome = true →
      roomPlayersD (subscribe rs roomId nm cid) roomId = roomPlayersD rs roomId ∧
      (∀ x ∈ roomClientsD rs roomId, x ∈ roomClientsD (subscribe rs roomId nm cid) roomId)) := by
  have hcl := roomClientsD_subscribe_self rs roomId nm cid
  have hpl := roomPlayersD_subscribe_self rs roomId nm cid
  rw [subscribeRoom] at hcl
  constructor
  · intro hnone
    have hl : ¬ ((((findRoom rs roomId).getD emptyRoom).players.lookup
        (effectiveName nm)).isSome = true) := by
      rw [getD_players rs roomId, hnone]
      simp
    rw [if_neg hl] at hcl
    have hl' : ¬ (((roomPlayersD rs roomId).lookup (effectiveName nm)).isSome = true) := by
      rw [hnone]; simp
    rw [if_neg hl'] at hpl
    refine ⟨hpl, ?_⟩
    intro x hx hxb
    rw [hcl]
    apply List.mem_append_left
    rw [deliver_eq]
    refine List.mem_map.mpr ⟨x, List.mem_filter.mpr ⟨?_, by simp [hxb]⟩, ?_⟩
    · rw [getD_clients]; exact hx
    · rw [getD_players]
  · intro hsome
    have hl : ((((findRoom rs roomId).getD emptyRoom).players.lookup
        (effectiveName nm)).isSome = true) := by
      rw [getD_players rs roomId]; exact hsome
    rw [if_pos hl] at hcl
    rw [if_pos hsome] at hpl
    refine ⟨hpl, ?_⟩
    intro x hx
    rw [hcl]
    apply List.mem_append_left
    rw [getD_clients]
    exact hx

/-- Witness for C5 (amended) at a nameless connection on an empty registry: the
effective name `Anonymous` is fresh, so a Player is registered. -/
theorem C5_amended_witness :
    roomPlayersD (subscribe [] "room" none 3) "room" =
      roomPlayersD ([] : Rooms) "room" ++ [("Anonymous", ⟨0, 0, 0, "Anonymous"⟩)] ∧
    (∀ x ∈ roomClientsD ([] : Rooms) "room", x.broken = false →
      { x with buffer := x.buffer ++ [Event.player_joined "Anonymous"
          ((roomPlayersD ([] : Rooms) "room").length + 1)] } ∈
        roomClientsD (subscribe [] "room" none 3) "room") :=
  (C5_amended_theorem [] "room" none 3).1 (by decide)

/-! ### Closed form of the disconnect hook -/

theorem findRoom_disconnect_self (rs : Rooms) (roomId : String) (cid : Nat)
    (pname : String) (R : Room) (h : findRoom rs roomId = some R) :
    findRoom (disconnect rs roomId cid pname) roomId =
      some ⟨R.blocks,
        deliver (Event.player_left pname (playersDelete R.players pname).length)
          (R.clients.filter (fun c => c.cid != cid)),
        playersDelete R.players pname⟩ := by
  rw [disconnect, h]
  dsimp only
  have h1 : findRoom (updateRoom rs roomId (fun room =>
      { room with clients := room.clients.filter (fun c => c.cid != cid),
                  players := playersDelete room.players pname })) roomId =
      some { R with clients := R.clients.filter (fun c => c.cid != cid),
                    players := playersDelete R.players pname } := by
    rw [findRoom_updateRoom_self, h]
    rfl
  have h2 : roomPlayersD (updateRoom rs roomId (fun room =>
      { room with clients := room.clients.filter (fun c => c.cid != cid),
                  players := playersDelete room.players pname })) roomId =
      playersDelete R.players pname := by
    rw [roomPlayersD, h1]
    rfl
  rw [h2, findRoom_broadcastToRoom_self, h1]
  rfl

theorem findRoom_disconnect_ne (rs : Rooms) (roomId r : String) (cid : Nat)
    (pname : String) (h : roomId ≠ r) :
    findRoom (disconnect rs roomId cid pname) r = findRoom rs r := by
  rw [disconnect]
  cases h0 : findRoom rs roomId with
  | none => rfl
  | some R =>
    rw [findRoom_broadcastToRoom_ne _ _ _ _ h, findRoom_updateRoom_ne _ _ _ _ h]

/-- **C6, counterexample.** The claim says the cleanup hook removes the Player
*only if one was registered for this connection*. In the code the hook deletes
the player by this connection's name unconditionally: after Alice subscribes on
connection 0 and a second connection 1 subscribes with the same name (which
registers nothing — the player map is unchanged), the disconnect of connection 1
still deletes Alice's Player. -/
theorem C6_counterexample :
    roomPlayersD (subscribe (subscribe [] "room" (some "Alice") 0) "room"
        (some "Alice") 1) "room" =
      roomPlayersD (subscribe [] "room" (some "Alice") 0) "room" ∧
    (roomPlayersD (disconnect (subscribe (subscribe [] "room" (some "Alice") 0) "room"
        (some "Alice") 1) "room" 1 "Alice") "room").lookup "Alice" = none := by
  constructor
  · decide
  · decide

/-- **C6 (amended).** On transport-level close/abort of a stream connection, the
cleanup hook detaches that connection's channel, removes the Player under this
connection's name *unconditionally* (even when this connection did not register
it), and broadcasts a `player_left` event carrying the player count after the
removal to the remaining non-broken channels; blocks and other rooms are
untouched. (That the hook runs exactly once per connection is a property of the
transport's abort event, outside this state model.) -/
theorem C6_amended_theorem (rs : Rooms) (roomId : String) (cid : Nat)
    (pname : String) (R : Room) (h : findRoom rs roomId = some R) :
    roomPlayersD (disconnect rs roomId cid pname) roomId =
        playersDelete R.players pname ∧
      (∀ c ∈ roomClientsD (disconnect rs roomId cid pname) roomId, c.cid ≠ cid) ∧
      roomClientsD (disconnect rs roomId cid pname) roomId =
        ((R.clients.filter (fun c => c.cid != cid)).filter (fun c => !c.broken)).map
          (fun c => { c with buffer := c.buffer ++
            [Event.player_left pname (playersDelete R.players pname).length] }) ∧
      roomBlocksD (disconnect rs roomId cid pname) roomId = R.blocks ∧
      (∀ r, roomId ≠ r → findRoom (disconnect rs roomId cid pname) r = findRoom rs r) := by
  have hself := findRoom_disconnect_self rs roomId cid pname R h
  have hcl : roomClientsD (disconnect rs roomId cid pname) roomId =
      ((R.clients.filter (fun c => c.cid != cid)).filter (fun c => !c.broken)).map
        (fun c => { c with buffer := c.buffer ++
          [Event.player_left pname (playersDelete R.players pname).length] }) := by
    rw [roomClientsD, hself, deliver_eq]
    rfl
  refine ⟨?_, ?_, hcl, ?_, fun r hr => findRoom_disconnect_ne rs roomId r cid pname hr⟩
  · rw [roomPlayersD, hself]
    rfl
  · intro c hc
    rw [hcl] at hc
    obtain ⟨c0, hc0, rfl⟩ := List.mem_map.mp hc
    have := (List.mem_filter.mp (List.mem_of_mem_filter hc0 : c0 ∈ _)).2
    intro he
    rw [he] at this
    simp at this
  · rw [roomBlocksD, hself]
    rfl

/-- Witness for C6 (amended): a room with two channels (one matching the closing
connection) and a registered player. -/
theorem C6_amended_witness :
    roomPlayersD (disconnect [("room", ⟨[], [⟨0, false, []⟩, ⟨1, false, []⟩],
          [("Alice", ⟨0, 0, 0, "Alice"⟩)]⟩)] "room" 1 "Alice") "room" =
        playersDelete [("Alice", ⟨0, 0, 0, "Alice"⟩)] "Alice" ∧
      (∀ c ∈ roomClientsD (disconnect [("room", ⟨[], [⟨0, false, []⟩, ⟨1, false, []⟩],
          [("Alice", ⟨0, 0, 0, "Alice"⟩)]⟩)] "room" 1 "Alice") "room", c.cid ≠ 1) ∧
      roomClientsD (disconnect [("room", ⟨[], [⟨0, false, []⟩, ⟨1, false, []⟩],
          [("Alice", ⟨0, 0, 0, "Alice"⟩)]⟩)] "room" 1 "Alice") "room" =
        (([⟨0, false, []⟩, ⟨1, false, []⟩].filter (fun c : Channel => c.cid != 1)).filter
            (fun c => !c.broken)).map
          (fun c => { c with buffer := c.buffer ++
            [Event.player_left "Alice"
              (playersDelete [("Alice", ⟨0, 0, 0, "Alice"⟩)] "Alice").length] }) ∧
      roomBlocksD (disconnect [("room", ⟨[], [⟨0, false, []⟩, ⟨1, false, []⟩],
          [("Alice", ⟨0, 0, 0, "Alice"⟩)]⟩)] "room" 1 "Alice") "room" = [] ∧
      (∀ r, "room" ≠ r → findRoom (disconnect [("room", ⟨[], [⟨0, false, []⟩, ⟨1, false, []⟩],
          [("Alice", ⟨0, 0, 0, "Alice"⟩)]⟩)] "room" 1 "Alice") r =
        findRoom [("room", ⟨[], [⟨0, false, []⟩, ⟨1, false, []⟩],
          [("Alice", ⟨0, 0, 0, "Alice"⟩)]⟩)] r) :=
  C6_amended_theorem [("room", ⟨[], [⟨0, false, []⟩, ⟨1, false, []⟩],
    [("Alice", ⟨0, 0, 0, "Alice"⟩)]⟩)] "room" 1 "Alice"
    ⟨[], [⟨0, false, []⟩, ⟨1, false, []⟩], [("Alice", ⟨0, 0, 0, "Alice"⟩)]⟩ (by decide)

/-! ### The at-most-one-block-per-id invariant (claim C4) -/

theorem roomBlocksD_subscribe (rs : Rooms) (roomId : String) (nm : Option String)
    (cid : Nat) (r : String) :
    roomBlocksD (subscribe rs roomId nm cid) r = roomBlocksD rs r := by
  by_cases h : roomId = r
  · subst h; exact roomBlocksD_subscribe_self rs roomId nm cid
  · rw [roomBlocksD, findRoom_subscribe_ne rs roomId r nm cid h]; rfl

theorem roomBlocksD_disconnect (rs : Rooms) (roomId : String) (cid : Nat)
    (pname : String) (r : String) :
    roomBlocksD (disconnect rs roomId cid pname) r = roomBlocksD rs r := by
  by_cases h : roomId = r
  · subst h
    cases h0 : findRoom rs roomId with
    | none => rw [disconnect, h0]
    | some R =>
      rw [roomBlocksD, findRoom_disconnect_self rs roomId cid pname R h0]
      simp [roomBlocksD, h0]
  · rw [roomBlocksD, findRoom_disconnect_ne rs roomId r cid pname h]; rfl

/-- **C4, counterexample.** The claim says the at-most-one-Block-per-id invariant
is preserved by every operation for *all* client-submitted payloads. The add
case blindly pushes the client's block: submitting the same block id twice
leaves two blocks with id `b1` in the room. -/
theorem C4_counterexample :
    ¬ (blockIdsD (post (post [] "room"
          (Action.add (some ⟨0, 0, 0, none, none, "b1"⟩) none)).1 "room"
          (Action.add (some ⟨0, 0, 0, none, none, "b1"⟩) none)).1 "room").Nodup := by
  decide

/-- **C4 (amended).** The at-most-one-Block-per-id invariant is preserved by
every operation — remove, clear, update_position, unrecognized actions,
subscribe and disconnect for all payloads, and add *provided the added block's
id is not already present in the targeted room* (a malformed add with a missing
block also preserves it, as the pushed `undefined` entry carries no id). The
server itself does not enforce the freshness of an added id. -/
theorem C4_amended_theorem (rs : Rooms) (roomId : String) (a : Action)
    (nm : Option String) (cid cid2 : Nat) (pn : String)
    (hinv : ∀ r, (blockIdsD rs r).Nodup)
    (hadd : ∀ b s, a = Action.add (some b) s → b.id ∉ blockIdsD rs roomId) :
    (∀ r, (blockIdsD (post rs roomId a).1 r).Nodup) ∧
    (∀ r, (blockIdsD (subscribe rs roomId nm cid) r).Nodup) ∧
    (∀ r, (blockIdsD (disconnect rs roomId cid2 pn) r).Nodup) := by
  refine ⟨?_, ?_, ?_⟩
  · intro r
    rw [blockIdsD, roomBlocksD_post]
    by_cases h : roomId = r
    · rw [if_pos h]
      cases a with
      | add b s =>
        simp only [postBlockStep, List.filterMap_append]
        cases b with
        | none => simpa [obId] using hinv roomId
        | some blk =>
          have hid : blk.id ∉ (roomBlocksD rs roomId).filterMap obId :=
            hadd blk s rfl
          have hone : List.filterMap obId [some blk] = [blk.id] := rfl
          rw [hone, List.nodup_append]
          exact ⟨hinv roomId, List.nodup_singleton _,
            fun x hx hmem => by
              rw [List.mem_singleton] at hmem
              exact hid (hmem ▸ hx)⟩
      | remove i s =>
        simp only [postBlockStep]
        by_cases hc : (roomBlocksD rs roomId).any (fun ob => ob.isNone)
        · rw [if_pos hc]; exact hinv roomId
        · rw [if_neg hc]
          have hsub := List.Sublist.filterMap obId
            (List.filter_sublist (p := fun ob => obId ob != i) (roomBlocksD rs roomId))
          exact List.Nodup.sublist hsub (hinv roomId)
      | clear => simp [postBlockStep]
      | update_position s p => simpa [postBlockStep] using hinv roomId
      | other t => simpa [postBlockStep] using hinv roomId
    · rw [if_neg h]; exact hinv r
  · intro r
    rw [blockIdsD, roomBlocksD_subscribe]
    exact hinv r
  · intro r
    rw [blockIdsD, roomBlocksD_disconnect]
    exact hinv r

/-- Witness for C4 (amended) on the empty registry with a fresh add. -/
theorem C4_amended_witness :
    (∀ r, (blockIdsD (post [] "room"
        (Action.add (some ⟨0, 0, 0, none, none, "b2"⟩) none)).1 r).Nodup) ∧
    (∀ r, (blockIdsD (subscribe [] "room" (some "Alice") 0) r).Nodup) ∧
    (∀ r, (blockIdsD (disconnect [] "room" 1 "Alice") r).Nodup) :=
  C4_amended_theorem [] "room" (Action.add (some ⟨0, 0, 0, none, none, "b2"⟩) none)
    (some "Alice") 0 1 "Alice"
    (fun r => by simp [blockIdsD, roomBlocksD, findRoom])
    (fun b s h => by cases h; simp [blockIdsD, roomBlocksD, findRoom])

theorem getOrCreateRoom_of_found (rs : Rooms) (k : String)
    (h : (findRoom rs k).isSome) : getOrCreateRoom rs k = rs := by
  rw [getOrCreateRoom]
  obtain ⟨R, hR⟩ := Option.isSome_iff_exists.mp h
  rw [hR]

/-- **C7, counterexample.** The claim says a submission missing a required field
is rejected with a client error before reaching the Mutation Handler, with no
mutation. In the code an `add` without a `block` first pushes the `undefined`
payload into `room.blocks` (a mutation) and then throws reading `data.block.x`
in the log statement, which the `try` answers with the 500 *server* error. -/
theorem C7_counterexample :
    roomBlocksD (post [("room", emptyRoom)] "room" (Action.add none none)).1 "room" ≠
        roomBlocksD [("room", emptyRoom)] "room" ∧
      (post [("room", emptyRoom)] "room" (Action.add none none)).2 =
        Response.serverError := by
  constructor
  · decide
  · decide

/-- **C7 (amended).** The server performs no field validation before the
mutation handler: an `add` whose `block` field is missing first appends the
`undefined` entry to the targeted room's blocks and is then answered with the
500 internal server error (no broadcast, no channel touched); an
`update_position` whose `position` field is missing is a silent no-op answered
with success, with the whole registry unchanged. -/
theorem C7_amended_theorem (rs : Rooms) (roomId : String) (s : Option String)
    (R : Room) (hroom : findRoom rs roomId = some R) :
    (roomBlocksD (post rs roomId (Action.add none s)).1 roomId =
        roomBlocksD rs roomId ++ [none] ∧
      (post rs roomId (Action.add none s)).2 = Response.serverError ∧
      (∀ r, roomClientsD (post rs roomId (Action.add none s)).1 r = roomClientsD rs r) ∧
      (∀ r, roomPlayersD (post rs roomId (Action.add none s)).1 r = roomPlayersD rs r)) ∧
    post rs roomId (Action.update_position s none) = (rs, Response.success) := by
  have hgoc : getOrCreateRoom rs roomId = rs :=
    getOrCreateRoom_of_found rs roomId (by rw [hroom]; rfl)
  constructor
  · refine ⟨?_, ?_, ?_, ?_⟩
    · have := roomBlocksD_post rs roomId (Action.add none s) roomId
      rw [if_pos rfl] at this
      rw [this]
      rfl
    · simp only [post]
    · intro r
      simp only [post, hgoc]
      by_cases h : roomId = r
      · subst h
        exact roomClientsD_updateRoom_self_eq rs roomId _ (fun room => rfl)
      · exact roomClientsD_updateRoom_ne rs roomId r _ h
    · intro r
      simp only [post, hgoc]
      by_cases h : roomId = r
      · subst h
        exact roomPlayersD_updateRoom_self_eq rs roomId _ (fun room => rfl)
      · exact roomPlayersD_updateRoom_ne rs roomId r _ h
  · cases s with
    | none => simp only [post, truthyStr, Bool.false_eq_true, if_false, hgoc]
    | some str =>
      by_cases hstr : str = ""
      · simp only [post, truthyStr, hstr, hgoc]
        rfl
      · simp only [post, truthyStr, hgoc]
        rw [if_pos (by simp [hstr])]

/-- Witness for C7 (amended) on a registry holding one empty room. -/
theorem C7_amended_witness :
    (roomBlocksD (post [("room", emptyRoom)] "room" (Action.add none (some "Alice"))).1
          "room" =
        roomBlocksD [("room", emptyRoom)] "room" ++ [none] ∧
      (post [("room", emptyRoom)] "room" (Action.add none (some "Alice"))).2 =
        Response.serverError ∧
      (∀ r, roomClientsD (post [("room", emptyRoom)] "room"
          (Action.add none (some "Alice"))).1 r =
        roomClientsD [("room", emptyRoom)] r) ∧
      (∀ r, roomPlayersD (post [("room", emptyRoom)] "room"
          (Action.add none (some "Alice"))).1 r =
        roomPlayersD [("room", emptyRoom)] r)) ∧
    post [("room", emptyRoom)] "room" (Action.update_position (some "Alice") none) =
      ([("room", emptyRoom)], Response.success) :=
  C7_amended_theorem [("room", emptyRoom)] "room" (some "Alice") emptyRoom (by decide)

/-- **C10.** Every POST submission first creates the room for the given roomId if
it is absent — including a submission whose action tag is unrecognized, which is
answered with the invalid-action (400) error, broadcasts nothing and changes no
existing room — so a rejected submission still grows the process-wide room map
by one empty room. -/
theorem C10_room_created_on_invalid (rs : Rooms) (roomId : String) (tag : String)
    (habs : findRoom rs roomId = none) :
    post rs roomId (Action.other tag) = (rs ++ [(roomId, emptyRoom)], Response.invalidAction) ∧
      findRoom (post rs roomId (Action.other tag)).1 roomId = some emptyRoom ∧
      (∀ r, r ≠ roomId → findRoom (post rs roomId (Action.other tag)).1 r = findRoom rs r) ∧
      (post rs roomId (Action.other tag)).1.length = rs.length + 1 := by
  have hpost : post rs roomId (Action.other tag) =
      (rs ++ [(roomId, emptyRoom)], Response.invalidAction) := by
    simp only [post, getOrCreateRoom, habs]
  refine ⟨hpost, ?_, ?_, ?_⟩
  · rw [hpost, findRoom_append, habs]
    simp
  · intro r hr
    rw [hpost, findRoom_append]
    have : ¬ (roomId = r) := fun he => hr he.symm
    cases h0 : findRoom rs r <;> simp [this, h0]
  · rw [hpost]
    simp

/-- Witness for C10: an invalid action on an absent room id. -/
theorem C10_witness :
    post [("other", emptyRoom)] "room" (Action.other "nonsense") =
        ([("other", emptyRoom), ("room", emptyRoom)], Response.invalidAction) ∧
      findRoom (post [("other", emptyRoom)] "room" (Action.other "nonsense")).1 "room" =
        some emptyRoom ∧
      (∀ r, r ≠ "room" →
        findRoom (post [("other", emptyRoom)] "room" (Action.other "nonsense")).1 r =
          findRoom [("other", emptyRoom)] r) ∧
      (post [("other", emptyRoom)] "room" (Action.other "nonsense")).1.length =
        ([("other", emptyRoom)] : Rooms).length + 1 :=
  C10_room_created_on_invalid [("other", emptyRoom)] "room" "nonsense" (by decide)

theorem any_isNone_false (bs : List (Option Block))
    (hall : ∀ ob ∈ bs, ob.isNone = false) :
    ¬ (bs.any (fun ob => ob.isNone) = true) := by
  intro hcon
  rw [List.any_eq_true] at hcon
  obtain ⟨ob, hob, hn⟩ := hcon
  rw [hall ob hob] at hn
  exact Bool.false_ne_true hn

/-- **C8.** For every room state with well-formed block entries and every
blockId not present in the room, a remove action leaves the room's blocks (hence
the block count) unchanged, still delivers a `remove` event carrying that
blockId and the sender to every attached non-broken channel, and reports
success rather than an existence error; and in general (last conjunct, for any
id) removing the same id twice leaves the same blocks as removing it once. -/
theorem C8_remove_nonexistent (rs : Rooms) (roomId : String) (i : String)
    (s : Option String) (R : Room) (hroom : findRoom rs roomId = some R)
    (hall : ∀ ob ∈ R.blocks, ob.isNone = false)
    (hid : i ∉ blockIdsD rs roomId) :
    (post rs roomId (Action.remove (some i) s)).2 = Response.success ∧
    roomBlocksD (post rs roomId (Action.remove (some i) s)).1 roomId =
      roomBlocksD rs roomId ∧
    (∀ x ∈ R.clients, x.broken = false →
      { x with buffer := x.buffer ++ [Event.remove (some i) s] } ∈
        roomClientsD (post rs roomId (Action.remove (some i) s)).1 roomId) ∧
    (∀ rs2 roomId2 i2 s2, (∀ ob ∈ roomBlocksD rs2 roomId2, ob.isNone = false) →
      roomBlocksD (post (post rs2 roomId2 (Action.remove (some i2) s2)).1 roomId2
          (Action.remove (some i2) s2)).1 roomId2 =
        roomBlocksD (post rs2 roomId2 (Action.remove (some i2) s2)).1 roomId2) := by
  have hgoc : getOrCreateRoom rs roomId = rs :=
    getOrCreateRoom_of_found rs roomId (by rw [hroom]; rfl)
  have hbs : roomBlocksD rs roomId = R.blocks := by simp [roomBlocksD, hroom]
  have hany : ¬ ((roomBlocksD rs roomId).any (fun ob => ob.isNone) = true) := by
    rw [hbs]
    exact any_isNone_false R.blocks hall
  have hfilter : R.blocks.filter (fun ob => obId ob != some i) = R.blocks := by
    rw [List.filter_eq_self]
    intro ob hob
    cases ob with
    | none => rfl
    | some b =>
      have hb : b.id ≠ i := by
        intro he
        apply hid
        rw [blockIdsD, hbs]
        exact List.mem_filterMap.mpr ⟨some b, hob, by simp [obId, he]⟩
      exact bne_iff_ne.mpr (fun he => hb (Option.some_injective _ he))
  have hres1 : (post rs roomId (Action.remove (some i) s)).1 =
      broadcastToRoom (updateRoom rs roomId (fun room =>
        { room with blocks := room.blocks.filter (fun ob => obId ob != some i) })) roomId
        (Event.remove (some i) s) := by
    simp only [post, hgoc]
    rw [if_neg hany]
  refine ⟨?_, ?_, ?_, ?_⟩
  · simp only [post, hgoc]
    rw [if_neg hany]
  · have h1 := roomBlocksD_post rs roomId (Action.remove (some i) s) roomId
    rw [if_pos rfl] at h1
    rw [h1]
    simp only [postBlockStep]
    rw [if_neg hany, hbs, hfilter]
  · have hcl : roomClientsD (post rs roomId (Action.remove (some i) s)).1 roomId =
        deliver (Event.remove (some i) s) R.clients := by
      rw [hres1, roomClientsD_broadcastToRoom_self]
      · rw [roomClientsD_updateRoom_self_eq rs roomId
          (fun room =>
            { room with blocks := room.blocks.filter (fun ob => obId ob != some i) })
          (fun room => rfl)]
        simp [roomClientsD, hroom]
      · rw [findRoom_updateRoom_self, hroom]
        rfl
    intro x hx hxb
    rw [hcl, deliver_eq]
    exact List.mem_map.mpr ⟨x, List.mem_filter.mpr ⟨hx, by simp [hxb]⟩, rfl⟩
  · intro rs2 roomId2 i2 s2 hall2
    have h1 := roomBlocksD_post rs2 roomId2 (Action.remove (some i2) s2) roomId2
    rw [if_pos rfl] at h1
    have h1' : roomBlocksD (post rs2 roomId2 (Action.remove (some i2) s2)).1 roomId2 =
        (roomBlocksD rs2 roomId2).filter (fun ob => obId ob != some i2) := by
      rw [h1]
      simp only [postBlockStep]
      rw [if_neg (any_isNone_false _ hall2)]
    have hall3 : ∀ ob ∈ roomBlocksD
        (post rs2 roomId2 (Action.remove (some i2) s2)).1 roomId2, ob.isNone = false := by
      rw [h1']
      intro ob hob
      exact hall2 ob (List.mem_of_mem_filter hob)
    have h2 := roomBlocksD_post (post rs2 roomId2 (Action.remove (some i2) s2)).1
      roomId2 (Action.remove (some i2) s2) roomId2
    rw [if_pos rfl] at h2
    rw [h2]
    simp only [postBlockStep]
    rw [if_neg (any_isNone_false _ hall3), h1', List.filter_filter]
    apply List.filter_congr
    intro ob _
    rw [Bool.and_self]

/-- Witness for C8: removing the absent id `zz` from a room holding one block
`a` and one attached channel. -/
theorem C8_remove_witness :
    (post [("room", ⟨[some ⟨0, 0, 0, none, none, "a"⟩], [⟨0, false, []⟩], []⟩)]
        "room" (Action.remove (some "zz") (some "Alice"))).2 = Response.success ∧
    roomBlocksD (post [("room", ⟨[some ⟨0, 0, 0, none, none, "a"⟩], [⟨0, false, []⟩], []⟩)]
        "room" (Action.remove (some "zz") (some "Alice"))).1 "room" =
      roomBlocksD [("room", ⟨[some ⟨0, 0, 0, none, none, "a"⟩], [⟨0, false, []⟩], []⟩)]
        "room" ∧
    (∀ x ∈ [(⟨0, false, []⟩ : Channel)], x.broken = false →
      { x with buffer := x.buffer ++ [Event.remove (some "zz") (some "Alice")] } ∈
        roomClientsD (post [("room", ⟨[some ⟨0, 0, 0, none, none, "a"⟩],
            [⟨0, false, []⟩], []⟩)]
          "room" (Action.remove (some "zz") (some "Alice"))).1 "room") ∧
    (∀ rs2 roomId2 i2 s2, (∀ ob ∈ roomBlocksD rs2 roomId2, ob.isNone = false) →
      roomBlocksD (post (post rs2 roomId2 (Action.remove (some i2) s2)).1 roomId2
          (Action.remove (some i2) s2)).1 roomId2 =
        roomBlocksD (post rs2 roomId2 (Action.remove (some i2) s2)).1 roomId2) :=
  C8_remove_nonexistent
    [("room", ⟨[some ⟨0, 0, 0, none, none, "a"⟩], [⟨0, false, []⟩], []⟩)]
    "room" "zz" (some "Alice")
    ⟨[some ⟨0, 0, 0, none, none, "a"⟩], [⟨0, false, []⟩], []⟩
    (by decide) (by decide) (by decide)

theorem playersMove_cons (k : String) (v : Player) (rest : List (String × Player))
    (n : String) (pos : Position) :
    playersMove ((k, v) :: rest) n pos =
      (if k = n then (k, ⟨pos.x, pos.y, pos.z, v.name⟩) else (k, v)) ::
        playersMove rest n pos := rfl

theorem lookup_playersMove_self (ps : List (String × Player)) (n : String)
    (pos : Position) :
    List.lookup n (playersMove ps n pos) =
      (List.lookup n ps).map (fun q => ⟨pos.x, pos.y, pos.z, q.name⟩) := by
  induction ps with
  | nil => rfl
  | cons q rest ih =>
    obtain ⟨k, v⟩ := q
    rw [playersMove_cons]
    by_cases hk : k = n
    · subst hk
      rw [if_pos rfl, List.lookup_cons, List.lookup_cons]
      simp
    · rw [if_neg hk, List.lookup_cons, List.lookup_cons]
      cases hb : n == k with
      | true => exact absurd (eq_of_beq hb).symm hk
      | false => exact ih

theorem lookup_playersMove_ne (ps : List (String × Player)) (n n' : String)
    (pos : Position) (h : n' ≠ n) :
    List.lookup n' (playersMove ps n pos) = List.lookup n' ps := by
  induction ps with
  | nil => rfl
  | cons q rest ih =>
    obtain ⟨k, v⟩ := q
    rw [playersMove_cons]
    by_cases hk : k = n
    · subst hk
      rw [if_pos rfl, List.lookup_cons, List.lookup_cons]
      cases hb : n' == k with
      | true => exact absurd (eq_of_beq hb) h
      | false => exact ih
    · rw [if_neg hk, List.lookup_cons, List.lookup_cons]
      cases hb : n' == k with
      | true => rfl
      | false => exact ih

/-- **C9.** An `update_position` whose sender is a registered (truthy) player
name overwrites exactly that player's x, y, z — the stored name and every other
player's entry are untouched — reports success, and delivers `player_moved` with
that name and position to every attached non-broken channel, leaving blocks and
other rooms unchanged; an `update_position` whose sender has no registered
Player (last conjunct) is a silent no-op: the response is success, nothing is
broadcast, and the registry is returned entirely unchanged. -/
theorem C9_update_position (rs : Rooms) (roomId : String) (s : String)
    (pos : Position) (R : Room) (p : Player) (hroom : findRoom rs roomId = some R)
    (hs : s ≠ "") (hlook : R.players.lookup s = some p) :
    (post rs roomId (Action.update_position (some s) (some pos))).2 =
        Response.success ∧
    roomPlayersD (post rs roomId (Action.update_position (some s) (some pos))).1
        roomId = playersMove R.players s pos ∧
    (roomPlayersD (post rs roomId (Action.update_position (some s) (some pos))).1
        roomId).lookup s = some ⟨pos.x, pos.y, pos.z, p.name⟩ ∧
    (∀ n, n ≠ s →
      (roomPlayersD (post rs roomId (Action.update_position (some s) (some pos))).1
          roomId).lookup n = R.players.lookup n) ∧
    (∀ x ∈ R.clients, x.broken = false →
      { x with buffer := x.buffer ++ [Event.player_moved s pos] } ∈
        roomClientsD (post rs roomId (Action.update_position (some s) (some pos))).1
          roomId) ∧
    roomBlocksD (post rs roomId (Action.update_position (some s) (some pos))).1
        roomId = R.blocks ∧
    (∀ r, roomId ≠ r →
      findRoom (post rs roomId (Action.update_position (some s) (some pos))).1 r =
        findRoom rs r) ∧
    (∀ rs2 roomId2 s2 pos2, (findRoom rs2 roomId2).isSome →
      (roomPlayersD rs2 roomId2).lookup s2 = none →
      post rs2 roomId2 (Action.update_position (some s2) (some pos2)) =
        (rs2, Response.success)) := by
  have hgoc : getOrCreateRoom rs roomId = rs :=
    getOrCreateRoom_of_found rs roomId (by rw [hroom]; rfl)
  have hps : roomPlayersD rs roomId = R.players := by simp [roomPlayersD, hroom]
  have hres1 : (post rs roomId (Action.update_position (some s) (some pos))).1 =
      broadcastToRoom (updateRoom rs roomId (fun room =>
        { room with players := playersMove room.players s pos })) roomId
        (Event.player_moved s pos) := by
    simp only [post, truthyStr, hgoc]
    rw [if_pos (by simp [hs]), hps, hlook]
  have hres2 : (post rs roomId (Action.update_position (some s) (some pos))).2 =
      Response.success := by
    simp only [post, truthyStr, hgoc]
    rw [if_pos (by simp [hs]), hps, hlook]
  have hupd : findRoom (updateRoom rs roomId (fun room =>
      { room with players := playersMove room.players s pos })) roomId =
      some { R with players := playersMove R.players s pos } := by
    rw [findRoom_updateRoom_self, hroom]
    rfl
  have hpl : roomPlayersD (post rs roomId
      (Action.update_position (some s) (some pos))).1 roomId =
      playersMove R.players s pos := by
    rw [hres1, roomPlayersD_broadcastToRoom, roomPlayersD, hupd]
    rfl
  refine ⟨hres2, hpl, ?_, ?_, ?_, ?_, ?_, ?_⟩
  · rw [hpl, lookup_playersMove_self, hlook]
    rfl
  · intro n hn
    rw [hpl, lookup_playersMove_ne _ _ _ _ hn]
  · have hcl : roomClientsD (post rs roomId
        (Action.update_position (some s) (some pos))).1 roomId =
        deliver (Event.player_moved s pos) R.clients := by
      rw [hres1, roomClientsD_broadcastToRoom_self]
      · rw [roomClientsD_updateRoom_self_eq rs roomId
          (fun room => { room with players := playersMove room.players s pos })
          (fun room => rfl)]
        simp [roomClientsD, hroom]
      · rw [hupd]
        rfl
    intro x hx hxb
    rw [hcl, deliver_eq]
    exact List.mem_map.mpr ⟨x, List.mem_filter.mpr ⟨hx, by simp [hxb]⟩, rfl⟩
  · rw [hres1, roomBlocksD_broadcastToRoom,
      roomBlocksD_updateRoom_self_eq rs roomId
        (fun room => { room with players := playersMove room.players s pos })
        (fun room => rfl)]
    simp [roomBlocksD, hroom]
  · intro r hr
    rw [hres1, findRoom_broadcastToRoom_ne _ _ _ _ hr,
      findRoom_updateRoom_ne _ _ _ _ hr]
  · intro rs2 roomId2 s2 pos2 hsome hnone
    have hgoc2 : getOrCreateRoom rs2 roomId2 = rs2 :=
      getOrCreateRoom_of_found rs2 roomId2 hsome
    by_cases hs2 : s2 = ""
    · simp only [post, truthyStr, hs2, hgoc2]
      rfl
    · simp only [post, truthyStr, hgoc2]
      rw [if_pos (by simp [hs2]), hnone]

/-- Witness for C9: Alice (registered, with one attached channel) moves to
(2,0,3). -/
theorem C9_update_position_witness :
    (post [("room", ⟨[], [⟨0, false, []⟩], [("Alice", ⟨0, 0, 0, "Alice"⟩)]⟩)] "room"
        (Action.update_position (some "Alice") (some ⟨2, 0, 3⟩))).2 =
        Response.success ∧
    roomPlayersD (post [("room", ⟨[], [⟨0, false, []⟩],
        [("Alice", ⟨0, 0, 0, "Alice"⟩)]⟩)] "room"
        (Action.update_position (some "Alice") (some ⟨2, 0, 3⟩))).1 "room" =
      playersMove [("Alice", ⟨0, 0, 0, "Alice"⟩)] "Alice" ⟨2, 0, 3⟩ ∧
    (roomPlayersD (post [("room", ⟨[], [⟨0, false, []⟩],
        [("Alice", ⟨0, 0, 0, "Alice"⟩)]⟩)] "room"
        (Action.update_position (some "Alice") (some ⟨2, 0, 3⟩))).1 "room").lookup
      "Alice" = some ⟨2, 0, 3, "Alice"⟩ ∧
    (∀ n, n ≠ "Alice" →
      (roomPlayersD (post [("room", ⟨[], [⟨0, false, []⟩],
          [("Alice", ⟨0, 0, 0, "Alice"⟩)]⟩)] "room"
          (Action.update_position (some "Alice") (some ⟨2, 0, 3⟩))).1 "room").lookup n =
        List.lookup n [("Alice", (⟨0, 0, 0, "Alice"⟩ : Player))]) ∧
    (∀ x ∈ [(⟨0, false, []⟩ : Channel)], x.broken = false →
      { x with buffer := x.buffer ++ [Event.player_moved "Alice" ⟨2, 0, 3⟩] } ∈
        roomClientsD (post [("room", ⟨[], [⟨0, false, []⟩],
            [("Alice", ⟨0, 0, 0, "Alice"⟩)]⟩)] "room"
          (Action.update_position (some "Alice") (some ⟨2, 0, 3⟩))).1 "room") ∧
    roomBlocksD (post [("room", ⟨[], [⟨0, false, []⟩],
        [("Alice", ⟨0, 0, 0, "Alice"⟩)]⟩)] "room"
        (Action.update_position (some "Alice") (some ⟨2, 0, 3⟩))).1 "room" = [] ∧
    (∀ r, "room" ≠ r →
      findRoom (post [("room", ⟨[], [⟨0, false, []⟩],
          [("Alice", ⟨0, 0, 0, "Alice"⟩)]⟩)] "room"
          (Action.update_position (some "Alice") (some ⟨2, 0, 3⟩))).1 r =
        findRoom [("room", ⟨[], [⟨0, false, []⟩],
          [("Alice", ⟨0, 0, 0, "Alice"⟩)]⟩)] r) ∧
    (∀ rs2 roomId2 s2 pos2, (findRoom rs2 roomId2).isSome →
      (roomPlayersD rs2 roomId2).lookup s2 = none →
      post rs2 roomId2 (Action.update_position (some s2) (some pos2)) =
        (rs2, Response.success)) :=
  C9_update_position [("room", ⟨[], [⟨0, false, []⟩], [("Alice", ⟨0, 0, 0, "Alice"⟩)]⟩)]
    "room" "Alice" ⟨2, 0, 3⟩ ⟨[], [⟨0, false, []⟩], [("Alice", ⟨0, 0, 0, "Alice"⟩)]⟩
    ⟨0, 0, 0, "Alice"⟩ (by decide) (by decide) (by decide)

end Minebuilder
